import Mathlib

/-!
# Shallow embedding of the DSBA-LMS exam core

This file embeds the evaluation/scoring engine (`src/services/examService.ts`),
the anti-cheat risk classifier (`src/components/AntiCheatMonitor.tsx`) and the
outcome-attainment aggregation (`src/components/COPOAnalytics.tsx`) of the
DSBA-LMS repository into Lean, and proves the specification claims about them.

Numbers are modelled by `ℚ` (the JavaScript code performs exact small-integer
arithmetic plus divisions, mins, maxes and `Math.round`; the literals `0.5` and
`0.6` are modelled by the rationals `1/2` and `3/5`).  `Math.round x` is
`⌊x + 1/2⌋` for every finite JavaScript number, which `jsRound` mirrors.
A JavaScript value of type `string | string[]` is an `Answer`; an optional one
(a possibly absent record field or map entry) is an `Option Answer`.
-/

namespace DSBA

/-- A submitted (or canonical) answer value: JS `string | string[]`. -/
inductive Answer where
  | str (s : String)
  | arr (l : List String)
deriving DecidableEq, Repr

/-- Question kinds from `types/exam.ts`: `mcq | checkbox | descriptive`. -/
inductive QuestionType where
  | mcq
  | checkbox
  | descriptive
deriving DecidableEq, Repr

/-- The `Question` interface of `types/exam.ts`.  `correctAnswer` and
`keywords` are optional fields there, hence `Option` here. -/
structure Question where
  id : String
  type : QuestionType
  text : String
  options : Option (List String)
  correctAnswer : Option Answer
  keywords : Option (List String)
  marks : ℚ
  co : Option String
  po : Option String
deriving Repr

/-- The `Test` interface of `types/exam.ts` (date fields modelled as `ℕ`). -/
structure Test where
  id : String
  title : String
  description : String
  subject : String
  duration : ℚ
  totalMarks : ℚ
  questions : List Question
  isActive : Bool
  createdBy : String
  createdAt : ℕ
  instructions : List String

/-- One per-question evaluation verdict
(`TestSubmission.evaluatedAnswers[questionId]` in `types/exam.ts`). -/
structure EvalResult where
  isCorrect : Bool
  marksAwarded : ℚ
  feedback : String
deriving DecidableEq, Repr

/-- Anti-cheat event kinds from `types/exam.ts`. -/
inductive ACEventType where
  | tab_switch
  | copy_paste
  | right_click
  | fullscreen_exit
deriving DecidableEq, Repr

/-- The `AntiCheatEvent` interface of `types/exam.ts`. -/
structure AntiCheatEvent where
  id : String
  type : ACEventType
  timestamp : ℕ
  details : Option String

/-- The `TestSubmission` interface of `types/exam.ts`.  The raw answer map is a
lookup function (JS `Record` access, `undefined` when absent); the evaluated
answers record is an association list keyed by question id, in the insertion
order produced by `evaluateAnswers`. -/
structure TestSubmission where
  id : String
  testId : String
  studentId : String
  studentName : String
  answers : String → Option Answer
  score : ℚ
  totalMarks : ℚ
  timeSpent : ℚ
  submittedAt : ℕ
  evaluatedAnswers : List (String × EvalResult)
  antiCheatEvents : List AntiCheatEvent

/-- Model of `Math.round`: round half toward positive infinity, `⌊x + 1/2⌋`. -/
def jsRound (x : ℚ) : ℚ := (⌊x + 1/2⌋ : ℤ)

/-- JS strict equality `===` between two optional `string | string[]` values as
they occur in this program.  Two strings compare by value; `undefined`
equals `undefined`; an array never strict-equals anything here, because the
submitted answer object and the stored canonical answer are always distinct
heap objects (the former is built by the UI / parsed from storage separately
from the latter), and `===` on arrays is reference equality. -/
def strictEq : Option Answer → Option Answer → Bool
  | some (.str a), some (.str b) => a == b
  | none, none => true
  | _, _ => false

/-- The mcq branch of the switch in `evaluateAnswers`
(`examService.ts` lines 180–183). -/
def evalMcq (question : Question) (userAnswer : Option Answer) : EvalResult :=
  let isCorrect := strictEq userAnswer question.correctAnswer
  { isCorrect := isCorrect
    marksAwarded := if isCorrect then question.marks else 0
    feedback := "" }

/-- The array/array case of the checkbox branch
(`examService.ts` lines 186–201).  JS `Set` construction is deduplication;
only sizes and memberships of the resulting sets are used, so the order in
which `List.dedup` keeps duplicates is irrelevant. -/
def evalCheckbox (marks : ℚ) (correctAnswer userAnswer : List String) : EvalResult :=
  let correctAnswers := correctAnswer.dedup
  let userAnswers := userAnswer.dedup
  let correctSelected : ℕ := (userAnswers.filter (· ∈ correctAnswers)).length
  let totalCorrect : ℕ := correctAnswers.length
  let incorrectSelected : ℕ := userAnswers.length - correctSelected
  let partScore : ℚ := ((correctSelected : ℚ) / (totalCorrect : ℚ)) * marks
  let penalty : ℚ := min (partScore * (1/2)) ((incorrectSelected : ℚ) * (marks / (totalCorrect : ℚ)))
  { isCorrect := decide (correctSelected = totalCorrect ∧ incorrectSelected = 0)
    marksAwarded := max 0 (partScore - penalty)
    feedback := "" }

/-- Boolean substring test on character lists (the model of JS
`String.prototype.includes`): true iff the needle occurs contiguously in the
haystack.  `containsSub_iff` below identifies it with `List.IsInfix`. -/
def containsSub (needle : List Char) : List Char → Bool
  | [] => needle.isEmpty
  | c :: rest => needle.isPrefixOf (c :: rest) || containsSub needle rest

/-- Case-insensitive substring test: JS
`answer.toLowerCase().includes(keyword.toLowerCase())`, with lower-casing
applied per character (JS `toLowerCase` and `Char.toLower` agree on the
ASCII text this program handles). -/
def keywordOccurs (keyword answer : String) : Bool :=
  containsSub (keyword.toList.map Char.toLower) (answer.toList.map Char.toLower)

/-- The string-answer case of the descriptive branch
(`examService.ts` lines 205–217). -/
def evalDescriptive (marks : ℚ) (keywords : List String) (answer : String) : EvalResult :=
  let matchedKeywords := keywords.filter (fun kw => keywordOccurs kw answer)
  let keywordScore : ℚ := ((matchedKeywords.length : ℚ) / (keywords.length : ℚ)) * marks
  { isCorrect := decide ((matchedKeywords.length : ℚ) ≥ (keywords.length : ℚ) * (3/5))
    marksAwarded := jsRound keywordScore
    feedback := "Keywords found: " ++ String.intercalate ", " matchedKeywords }

/-- The default verdict: switch fell through with `isCorrect = false`,
`marksAwarded = 0`, empty feedback. -/
def evalZero : EvalResult :=
  { isCorrect := false, marksAwarded := 0, feedback := "" }

/-- Evaluation of one question against the (possibly absent) submitted answer:
the body of the `forEach` in `evaluateAnswers` (`examService.ts` lines
173–228).  The guards mirror the source: the checkbox branch requires both the
user answer and the canonical answer to be arrays, the descriptive branch
requires a string answer and a present `keywords` field. -/
def evaluateQuestion (question : Question) (userAnswer : Option Answer) : EvalResult :=
  match question.type with
  | .mcq => evalMcq question userAnswer
  | .checkbox =>
    match userAnswer, question.correctAnswer with
    | some (.arr ua), some (.arr ca) => evalCheckbox question.marks ca ua
    | _, _ => evalZero
  | .descriptive =>
    match userAnswer, question.keywords with
    | some (.str ans), some ks => evalDescriptive question.marks ks ans
    | _, _ => evalZero

/-- The function `evaluateAnswers` (`examService.ts` lines 166–231): one verdict per
question, keyed by question id, plus the rounded aggregate score. -/
def evaluateAnswers (test : Test) (answers : String → Option Answer) :
    ℚ × List (String × EvalResult) :=
  let evaluated := test.questions.map (fun q => (q.id, evaluateQuestion q (answers q.id)))
  let totalScore := (evaluated.map (fun p => p.2.marksAwarded)).sum
  (jsRound totalScore, evaluated)

/-- Record lookup into an evaluated-answers association list. -/
def lookupEval (evaluated : List (String × EvalResult)) (qid : String) : Option EvalResult :=
  (evaluated.find? (fun p => p.1 == qid)).map Prod.snd

/-- Lookup `getTestById` (`examService.ts` lines 105–108): `find(...) || null`. -/
def getTestById (tests : List Test) (id : String) : Option Test :=
  tests.find? (fun test => test.id == id)

/-- The persistent store contents relevant to submission creation. -/
structure Store where
  tests : List Test
  submissions : List TestSubmission

/-- The function `submitTest` (`examService.ts` lines 233–266).  The JS function throws
an error (message `Test not found`) before touching storage when the target test is
missing; this is modelled by returning the error together with the unchanged
store.  `now` stands for `Date.now()`. -/
def submitTest (store : Store) (now : ℕ) (testId studentId studentName : String)
    (answers : String → Option Answer) (timeSpent : ℚ)
    (antiCheatEvents : List AntiCheatEvent) :
    Except String TestSubmission × Store :=
  match getTestById store.tests testId with
  | none => (.error "Test not found", store)
  | some test =>
    let r := evaluateAnswers test answers
    let submission : TestSubmission :=
      { id := "sub-" ++ toString now
        testId := testId
        studentId := studentId
        studentName := studentName
        answers := answers
        score := r.1
        totalMarks := test.totalMarks
        timeSpent := timeSpent
        submittedAt := now
        evaluatedAnswers := r.2
        antiCheatEvents := antiCheatEvents }
    (.ok submission, { store with submissions := store.submissions ++ [submission] })

/-- A leaderboard row (`LeaderboardEntry` in `types/exam.ts`). -/
structure LeaderboardEntry where
  studentId : String
  studentName : String
  score : ℚ
  totalMarks : ℚ
  percentage : ℚ
  rank : ℕ
  timeSpent : ℚ
  submittedAt : ℕ

/-- Filter `getSubmissionsByTest` (`examService.ts` lines 157–159). -/
def getSubmissionsByTest (submissions : List TestSubmission) (testId : String) :
    List TestSubmission :=
  submissions.filter (fun sub => sub.testId == testId)

/-- The sort comparator of `getLeaderboard`
(`(a, b) => b.score - a.score || a.timeSpent - b.timeSpent`), expressed as
"`a` may come before (or tie with) `b`": true iff the comparator is `≤ 0`. -/
def leaderboardLE (a b : LeaderboardEntry) : Bool :=
  decide (b.score < a.score) || (decide (a.score = b.score) && decide (a.timeSpent ≤ b.timeSpent))

/-- The `.map((sub, index) => ...)` stage of `getLeaderboard`
(`examService.ts` lines 272–282): each submission becomes an entry with a
provisional rank from the pre-sort index. -/
def leaderboardEntries (submissions : List TestSubmission) (testId : String) :
    List LeaderboardEntry :=
  (getSubmissionsByTest submissions testId).enum.map (fun p => (
    { studentId := p.2.studentId
      studentName := p.2.studentName
      score := p.2.score
      totalMarks := p.2.totalMarks
      percentage := jsRound ((p.2.score / p.2.totalMarks) * 100)
      rank := p.1 + 1
      timeSpent := p.2.timeSpent
      submittedAt := p.2.submittedAt } : LeaderboardEntry))

/-- The function `getLeaderboard` (`examService.ts` lines 269–291): build entries, sort by
score descending then elapsed time ascending (JS `Array.prototype.sort` is
stable; `List.mergeSort` likewise), then overwrite each rank with the 1-based
post-sort position. -/
def getLeaderboard (submissions : List TestSubmission) (testId : String) :
    List LeaderboardEntry :=
  ((leaderboardEntries submissions testId).mergeSort leaderboardLE).enum.map
    (fun p => { p.2 with rank := p.1 + 1 })

/-- Risk tiers from `AntiCheatMonitor.tsx`. -/
inductive RiskLevel where
  | Low
  | Medium
  | High
  | Critical
deriving DecidableEq, Repr

/-- Aggregate risk tier from the total event count
(`AntiCheatMonitor.tsx` lines 110–114). -/
def summaryRiskLevel (totalEvents : ℕ) : RiskLevel :=
  if totalEvents > 50 then .Critical
  else if totalEvents > 20 then .High
  else if totalEvents > 5 then .Medium
  else .Low

/-- Per-student risk tier from the event count of a single submission
(`AntiCheatMonitor.tsx` lines 138–141). -/
def studentRiskLevel (totalViolations : ℕ) : RiskLevel :=
  if totalViolations > 10 then .Critical
  else if totalViolations > 5 then .High
  else if totalViolations > 2 then .Medium
  else .Low

/-- Modelled from the spec: the aggregate risk scale written as the step function of the spec with inclusive lower boundaries — `Low` (≤5 total events),
`Medium` (6–20), `High` (21–50), `Critical` (>50). -/
def specAggregateRisk (n : ℕ) : RiskLevel :=
  if n ≤ 5 then .Low
  else if n ≤ 20 then .Medium
  else if n ≤ 50 then .High
  else .Critical

/-- Modelled from the spec: the per-student risk scale — `Low` (≤2),
`Medium` (3–5), `High` (6–10), `Critical` (>10). -/
def specStudentRisk (n : ℕ) : RiskLevel :=
  if n ≤ 2 then .Low
  else if n ≤ 5 then .Medium
  else if n ≤ 10 then .High
  else .Critical

/-- Attainment tiers from `COPOAnalytics.tsx`. -/
inductive AttainmentLevel where
  | NotAttained
  | PartAttained
  | Attained
  | HighlyAttained
deriving DecidableEq, Repr

/-- The attainment-tier chain of `calculateCOPerformance` /
`calculatePOPerformance` (`COPOAnalytics.tsx` lines 91–94 and 145–148). -/
def attainmentLevelOf (percentage : ℚ) : AttainmentLevel :=
  if percentage ≥ 80 then .HighlyAttained
  else if percentage ≥ 60 then .Attained
  else if percentage ≥ 40 then .PartAttained
  else .NotAttained

/-- Modelled from the spec: Highly Attained at ≥80, Attained at ≥60,
`Partially Attained` ≥40, else `Not Attained`. -/
def specAttainment (percentage : ℚ) : AttainmentLevel :=
  if percentage ≥ 80 then .HighlyAttained
  else if percentage ≥ 60 then .Attained
  else if percentage ≥ 40 then .PartAttained
  else .NotAttained

/-- The guarded percentage of `calculateCOPerformance` / `calculatePOPerformance`
(`COPOAnalytics.tsx` lines 87 and 141):
`totalMarks > 0 ? totalScored / totalMarks * 100 : 0`. -/
def attainPercentage (totalScored totalMarks : ℚ) : ℚ :=
  if totalMarks > 0 then totalScored / totalMarks * 100 else 0

/-- The per-outcome accumulation of `calculateCOPerformance`
(`COPOAnalytics.tsx` lines 63–83), for one outcome tag along a chosen axis
(`Question.co` or `Question.po`): over every question of every scoped test
carrying the tag and every submission to that test whose evaluated answers
contain the question, add the marks of the question to the possible total and the
awarded marks to the scored total. -/
def outcomeTotals (axis : Question → Option String) (tag : String)
    (tests : List Test) (submissions : List TestSubmission) : ℚ × ℚ :=
  tests.foldl (fun acc test =>
    let testSubmissions := submissions.filter (fun sub => sub.testId == test.id)
    test.questions.foldl (fun acc question =>
      if axis question = some tag then
        testSubmissions.foldl (fun acc submission =>
          match lookupEval submission.evaluatedAnswers question.id with
          | some r => (acc.1 + question.marks, acc.2 + r.marksAwarded)
          | none => acc) acc
      else acc) acc) (0, 0)

/-- The data-model invariant of spec §3 on a question: positive point value;
single-choice questions have one canonical correct option (a string);
multi-choice questions have a non-empty canonical correct set; free-text
questions have a non-empty keyword set. -/
def Question.WellFormed (q : Question) : Prop :=
  0 < q.marks ∧
  match q.type with
  | .mcq => ∃ c, q.correctAnswer = some (.str c)
  | .checkbox => ∃ l, q.correctAnswer = some (.arr l) ∧ l ≠ []
  | .descriptive => ∃ ks, q.keywords = some ks ∧ ks ≠ []

/-- Whether an answer value has the shape the question kind expects
(string for single-choice and free-text, array for multi-choice). -/
def matchesShape : QuestionType → Answer → Prop
  | .mcq, .str _ => True
  | .checkbox, .arr _ => True
  | .descriptive, .str _ => True
  | _, _ => False

/-- The multi-choice award of `examService.ts` lines 196–199 as a function of
the marks, the canonical-set size `k`, the correct-selected count `cs` and the
incorrect-selected count `iw`:
`max(0, (cs/k)*marks - min((cs/k)*marks*0.5, iw*(marks/k)))`. -/
def checkboxAward (marks : ℚ) (k cs iw : ℕ) : ℚ :=
  max 0 (((cs : ℚ) / (k : ℚ)) * marks -
    min (((cs : ℚ) / (k : ℚ)) * marks * (1/2)) ((iw : ℚ) * (marks / (k : ℚ))))

/-- Fixture: the single-choice question `q1` of the seeded mock test. -/
def wMcq : Question :=
  { id := "q1", type := .mcq, text := "Which data structure follows LIFO principle?"
    options := some ["Queue", "Stack", "Array", "Linked List"]
    correctAnswer := some (.str "Stack"), keywords := none
    marks := 5, co := some "CO1", po := some "PO1" }

/-- Fixture: a multi-choice question worth 10 marks with canonical set
of size 3 (short option labels keep concrete evaluation cheap). -/
def wCb : Question :=
  { id := "q2", type := .checkbox, text := "Select all linear structures"
    options := some ["A", "T", "S", "G", "Q"]
    correctAnswer := some (.arr ["A", "S", "Q"]), keywords := none
    marks := 10, co := some "CO2", po := some "PO2" }

/-- Fixture: the free-text question `q3` of the seeded mock test. -/
def wDesc : Question :=
  { id := "q3", type := .descriptive, text := "Explain linked lists vs arrays."
    options := none, correctAnswer := none
    keywords := some ["dynamic", "memory", "insertion", "deletion", "flexible"]
    marks := 15, co := some "CO3", po := some "PO3" }

/-- Fixture: a free-text question with a positive but non-integer point value
(the data model only requires a positive number). -/
def cDesc : Question :=
  { id := "qc", type := .descriptive, text := "Short answer"
    options := none, correctAnswer := none
    keywords := some ["aa", "bb"]
    marks := 1/2, co := none, po := none }

/-- Fixture: a test made of the three seeded questions. -/
def wTest : Test :=
  { id := "test-1", title := "Data Structures - First IA"
    description := "IA", subject := "CS", duration := 120, totalMarks := 30
    questions := [wMcq, wCb, wDesc], isActive := true
    createdBy := "T001", createdAt := 0, instructions := [] }

/-- Fixture: a store holding no tests and no submissions. -/
def emptyStore : Store := { tests := [], submissions := [] }

end DSBA

namespace DSBA

/-! ## Helper lemmas -/

theorem dedup_filter_length_eq (ua ca : List String) :
    (ua.dedup.filter (· ∈ ca.dedup)).length = (ua.toFinset ∩ ca.toFinset).card := by
  have hnd : (ua.dedup.filter (· ∈ ca.dedup)).Nodup := (List.nodup_dedup ua).filter _
  rw [← List.toFinset_card_of_nodup hnd]
  congr 1
  ext x
  simp [List.mem_filter, List.mem_dedup]

theorem dedup_length_eq (l : List String) : l.dedup.length = l.toFinset.card :=
  (List.card_toFinset l).symm

theorem dedup_sub_filter_eq (ua ca : List String) :
    ua.dedup.length - (ua.dedup.filter (· ∈ ca.dedup)).length =
      (ua.toFinset \ ca.toFinset).card := by
  have h := Finset.card_inter_add_card_sdiff ua.toFinset ca.toFinset
  rw [dedup_filter_length_eq, dedup_length_eq]
  omega

theorem evalCheckbox_eq (marks : ℚ) (ca ua : List String) :
    evalCheckbox marks ca ua =
      { isCorrect := decide ((ua.toFinset ∩ ca.toFinset).card = ca.toFinset.card ∧
          (ua.toFinset \ ca.toFinset).card = 0)
        marksAwarded := checkboxAward marks ca.toFinset.card
          ((ua.toFinset ∩ ca.toFinset).card) ((ua.toFinset \ ca.toFinset).card)
        feedback := "" } := by
  simp only [evalCheckbox, checkboxAward]
  rw [dedup_sub_filter_eq, dedup_filter_length_eq, dedup_length_eq]

theorem checkboxAward_nonneg (marks : ℚ) (k cs iw : ℕ) :
    0 ≤ checkboxAward marks k cs iw :=
  le_max_left 0 _

theorem checkboxAward_le_marks (marks : ℚ) (hm : 0 ≤ marks) (k cs iw : ℕ) (hcs : cs ≤ k) :
    checkboxAward marks k cs iw ≤ marks := by
  unfold checkboxAward
  have hpm : (cs : ℚ) / (k : ℚ) * marks ≤ marks := by
    rcases Nat.eq_zero_or_pos k with hk | hk
    · subst hk
      simp [hm]
    · have hkq : (0 : ℚ) < (k : ℚ) := by exact_mod_cast hk
      have h1 : (cs : ℚ) / (k : ℚ) ≤ 1 := by
        rw [div_le_one hkq]
        exact_mod_cast hcs
      calc (cs : ℚ) / (k : ℚ) * marks ≤ 1 * marks := mul_le_mul_of_nonneg_right h1 hm
        _ = marks := one_mul marks
  have hpen : 0 ≤ min ((cs : ℚ) / (k : ℚ) * marks * (1/2)) ((iw : ℚ) * (marks / (k : ℚ))) := by
    apply le_min
    · positivity
    · positivity
  apply max_le hm
  linarith

theorem checkboxAward_mono (marks : ℚ) (hm : 0 ≤ marks) (k iw : ℕ) {cs₁ cs₂ : ℕ}
    (h : cs₁ ≤ cs₂) : checkboxAward marks k cs₁ iw ≤ checkboxAward marks k cs₂ iw := by
  unfold checkboxAward
  rcases Nat.eq_zero_or_pos k with hk | hk
  · subst hk
    simp
  · have hkq : (0 : ℚ) < (k : ℚ) := by exact_mod_cast hk
    have hp : (cs₁ : ℚ) / (k : ℚ) * marks ≤ (cs₂ : ℚ) / (k : ℚ) * marks := by
      apply mul_le_mul_of_nonneg_right _ hm
      exact (div_le_div_iff_of_pos_right hkq).mpr (by exact_mod_cast h)
    apply max_le_max le_rfl
    rcases le_total ((cs₁ : ℚ) / (k : ℚ) * marks * (1/2)) ((iw : ℚ) * (marks / (k : ℚ))) with
      h1 | h1 <;>
    rcases le_total ((cs₂ : ℚ) / (k : ℚ) * marks * (1/2)) ((iw : ℚ) * (marks / (k : ℚ))) with
      h2 | h2
    · rw [min_eq_left h1, min_eq_left h2]
      linarith
    · rw [min_eq_left h1, min_eq_right h2]
      linarith
    · rw [min_eq_right h1, min_eq_left h2]
      linarith
    · rw [min_eq_right h1, min_eq_right h2]
      linarith

theorem checkboxAward_anti (marks : ℚ) (hm : 0 ≤ marks) (k cs : ℕ) {iw₁ iw₂ : ℕ}
    (h : iw₁ ≤ iw₂) : checkboxAward marks k cs iw₂ ≤ checkboxAward marks k cs iw₁ := by
  unfold checkboxAward
  have hc : (iw₁ : ℚ) * (marks / (k : ℚ)) ≤ (iw₂ : ℚ) * (marks / (k : ℚ)) :=
    mul_le_mul_of_nonneg_right (by exact_mod_cast h) (by positivity)
  apply max_le_max le_rfl
  apply sub_le_sub_left
  exact min_le_min le_rfl hc

theorem jsRound_nonneg {x : ℚ} (h : 0 ≤ x) : 0 ≤ jsRound x := by
  unfold jsRound
  have h2 : (0 : ℤ) ≤ ⌊x + 1/2⌋ := by
    apply Int.le_floor.mpr
    push_cast
    linarith
  exact_mod_cast h2

theorem jsRound_le_nat {x : ℚ} (n : ℕ) (h : x ≤ (n : ℚ)) : jsRound x ≤ (n : ℚ) := by
  unfold jsRound
  have hfl : ⌊x + 1/2⌋ ≤ ⌊(n : ℚ) + 1/2⌋ := Int.floor_le_floor (by linarith)
  have hn : ⌊(n : ℚ) + 1/2⌋ = (n : ℤ) := by
    rw [add_comm, Int.floor_add_nat]
    norm_num
  rw [hn] at hfl
  exact_mod_cast hfl

/-! ## C1 and C4: multi-choice partial credit -/

/-- C1: for every multi-choice question with canonical correct set `C` of size
`k > 0` and submitted set `S`, with `cs = |S ∩ C|` and `iw = |S \ C|`, the
evaluation awards `max(0, (cs/k)*points - min((cs/k)*points*0.5, iw*(points/k)))`
marks and marks the answer fully correct iff `cs = k` and `iw = 0`. -/
theorem checkbox_partial_credit (q : Question) (ca ua : List String)
    (htype : q.type = .checkbox) (hca : q.correctAnswer = some (.arr ca))
    (_hk : 0 < ca.toFinset.card) :
    ((evaluateQuestion q (some (.arr ua))).marksAwarded =
      max 0 ((((ua.toFinset ∩ ca.toFinset).card : ℚ) / (ca.toFinset.card : ℚ)) * q.marks -
        min ((((ua.toFinset ∩ ca.toFinset).card : ℚ) / (ca.toFinset.card : ℚ)) * q.marks * (1/2))
          (((ua.toFinset \ ca.toFinset).card : ℚ) * (q.marks / (ca.toFinset.card : ℚ))))) ∧
    ((evaluateQuestion q (some (.arr ua))).isCorrect = true ↔
      ((ua.toFinset ∩ ca.toFinset).card = ca.toFinset.card ∧
        (ua.toFinset \ ca.toFinset).card = 0)) := by
  have he : evaluateQuestion q (some (.arr ua)) = evalCheckbox q.marks ca ua := by
    simp [evaluateQuestion, htype, hca]
  rw [he, evalCheckbox_eq]
  constructor
  · rfl
  · simp

/-- Witness for C1 at the seeded checkbox question with submission
`{A, S, T}` against canonical `{A, S, Q}`. -/
theorem checkbox_partial_credit_witness :
    0 < ((["A", "S", "Q"] : List String).toFinset.card) ∧
    ((evaluateQuestion wCb (some (.arr ["A", "S", "T"]))).isCorrect = true ↔
      (((["A", "S", "T"] : List String).toFinset ∩
          (["A", "S", "Q"] : List String).toFinset).card =
        (["A", "S", "Q"] : List String).toFinset.card ∧
        ((["A", "S", "T"] : List String).toFinset \
          (["A", "S", "Q"] : List String).toFinset).card = 0)) :=
  ⟨by decide, (checkbox_partial_credit wCb ["A", "S", "Q"] ["A", "S", "T"]
    rfl rfl (by decide)).2⟩

/-- C4: for every multi-choice question (nonnegative point value), the awarded
marks are non-decreasing in the correct-selected count when the
incorrect-selected count is fixed, and non-increasing in the
incorrect-selected count when the correct-selected count is fixed. -/
theorem checkbox_award_monotone (q : Question) (ca : List String)
    (htype : q.type = .checkbox) (hca : q.correctAnswer = some (.arr ca))
    (hm : 0 ≤ q.marks) :
    (∀ ua₁ ua₂ : List String,
      (ua₁.toFinset ∩ ca.toFinset).card ≤ (ua₂.toFinset ∩ ca.toFinset).card →
      (ua₁.toFinset \ ca.toFinset).card = (ua₂.toFinset \ ca.toFinset).card →
      (evaluateQuestion q (some (.arr ua₁))).marksAwarded ≤
        (evaluateQuestion q (some (.arr ua₂))).marksAwarded) ∧
    (∀ ua₁ ua₂ : List String,
      (ua₁.toFinset ∩ ca.toFinset).card = (ua₂.toFinset ∩ ca.toFinset).card →
      (ua₁.toFinset \ ca.toFinset).card ≤ (ua₂.toFinset \ ca.toFinset).card →
      (evaluateQuestion q (some (.arr ua₂))).marksAwarded ≤
        (evaluateQuestion q (some (.arr ua₁))).marksAwarded) := by
  have he : ∀ ua : List String,
      evaluateQuestion q (some (.arr ua)) = evalCheckbox q.marks ca ua := by
    intro ua
    simp [evaluateQuestion, htype, hca]
  constructor
  · intro ua₁ ua₂ hcs hiw
    rw [he, he, evalCheckbox_eq, evalCheckbox_eq]
    dsimp only
    rw [hiw]
    exact checkboxAward_mono q.marks hm _ _ hcs
  · intro ua₁ ua₂ hcs hiw
    rw [he, he, evalCheckbox_eq, evalCheckbox_eq]
    dsimp only
    rw [hcs]
    exact checkboxAward_anti q.marks hm _ _ hiw

/-- Witness for C4 at the seeded checkbox question: submitting `{A}` awards at
most as much as submitting `{A, S}` (same incorrect-selected count 0). -/
theorem checkbox_award_monotone_witness :
    (0 : ℚ) ≤ wCb.marks ∧
    (evaluateQuestion wCb (some (.arr ["A"]))).marksAwarded ≤
      (evaluateQuestion wCb (some (.arr ["A", "S"]))).marksAwarded :=
  ⟨by norm_num [wCb], (checkbox_award_monotone wCb ["A", "S", "Q"] rfl rfl
    (by norm_num [wCb])).1 ["A"] ["A", "S"] (by decide) (by decide)⟩

end DSBA

namespace DSBA

/-! ## C2: free-text keyword scoring -/

/-- C2: for every free-text question with a non-empty keyword list and a
string answer, the awarded marks equal
`round((matched keywords / total keywords) * points)`, and the answer is
marked correct iff the matched fraction is at least `3/5` (the boundary
itself counts as correct). -/
theorem descriptive_keyword_eval (q : Question) (ks : List String) (ans : String)
    (htype : q.type = .descriptive) (hks : q.keywords = some ks) (hne : ks ≠ []) :
    ((evaluateQuestion q (some (.str ans))).marksAwarded =
      jsRound ((((ks.filter (fun kw => keywordOccurs kw ans)).length : ℚ) /
        (ks.length : ℚ)) * q.marks)) ∧
    ((evaluateQuestion q (some (.str ans))).isCorrect = true ↔
      (3/5 : ℚ) ≤ ((ks.filter (fun kw => keywordOccurs kw ans)).length : ℚ) /
        (ks.length : ℚ)) := by
  have he : evaluateQuestion q (some (.str ans)) = evalDescriptive q.marks ks ans := by
    simp [evaluateQuestion, htype, hks]
  rw [he]
  have hL : (0 : ℚ) < (ks.length : ℚ) := by
    have h0 : 0 < ks.length := List.length_pos.mpr hne
    exact_mod_cast h0
  constructor
  · rfl
  · simp only [evalDescriptive, decide_eq_true_eq, ge_iff_le]
    rw [le_div_iff₀ hL, mul_comm]

/-- Witness for C2 at the seeded free-text question (15 points, 5 keywords)
with an answer matching exactly 3 keywords: the inclusive 3/5 boundary. -/
theorem descriptive_keyword_eval_witness :
    (["dynamic", "memory", "insertion", "deletion", "flexible"] : List String) ≠ [] ∧
    ((evaluateQuestion wDesc
        (some (.str "Dynamic memory allows easy insertion"))).marksAwarded =
      jsRound (((((["dynamic", "memory", "insertion", "deletion", "flexible"] :
          List String).filter
            (fun kw => keywordOccurs kw "Dynamic memory allows easy insertion")).length : ℚ) /
        ((["dynamic", "memory", "insertion", "deletion", "flexible"] :
          List String).length : ℚ)) * wDesc.marks)) :=
  ⟨by decide, (descriptive_keyword_eval wDesc
    ["dynamic", "memory", "insertion", "deletion", "flexible"]
    "Dynamic memory allows easy insertion" rfl rfl (by decide)).1⟩

/-! ## C9: single-choice exact match -/

theorem strictEq_some_str_iff (ua : Option Answer) (c : String) :
    strictEq ua (some (.str c)) = true ↔ ua = some (.str c) := by
  cases ua with
  | none => simp [strictEq]
  | some a =>
    cases a with
    | str s => simp [strictEq]
    | arr l => simp [strictEq]

/-- C9: for every single-choice question, evaluation awards the full point
value iff the submitted value string-equals the canonical correct option and
zero otherwise, and (for a positive point value) the correctness flag is true
exactly in the full-award case. -/
theorem mcq_exact_match (q : Question) (c : String) (ua : Option Answer)
    (htype : q.type = .mcq) (hc : q.correctAnswer = some (.str c)) :
    ((evaluateQuestion q ua).marksAwarded =
      if ua = some (.str c) then q.marks else 0) ∧
    ((evaluateQuestion q ua).isCorrect = true ↔ ua = some (.str c)) ∧
    (0 < q.marks →
      ((evaluateQuestion q ua).marksAwarded = q.marks ↔
        (evaluateQuestion q ua).isCorrect = true)) := by
  have he : evaluateQuestion q ua = evalMcq q ua := by
    simp [evaluateQuestion, htype]
  by_cases h : ua = some (.str c)
  · subst h
    have hb : strictEq (some (Answer.str c)) (some (Answer.str c)) = true := by
      simp [strictEq]
    rw [he]
    simp [evalMcq, hc, hb, strictEq]
  · have hb : strictEq ua (some (Answer.str c)) = false := by
      rw [Bool.eq_false_iff]
      intro habs
      exact h ((strictEq_some_str_iff ua c).mp habs)
    rw [he]
    simp only [evalMcq, hc, hb, Bool.false_eq_true, if_false, iff_false, false_iff]
    refine ⟨(if_neg h).symm, h, fun hpos => ?_⟩
    exact fun h0 => absurd h0.symm (ne_of_gt hpos)

/-- Witness for C9 at the seeded single-choice question with the matching
submission. -/
theorem mcq_exact_match_witness :
    wMcq.type = QuestionType.mcq ∧
    ((evaluateQuestion wMcq (some (.str "Stack"))).isCorrect = true ↔
      (some (Answer.str "Stack") : Option Answer) = some (.str "Stack")) :=
  ⟨rfl, (mcq_exact_match wMcq "Stack" (some (.str "Stack")) rfl rfl).2.1⟩

/-! ## C5: risk tiers -/

/-- C5: both risk-tier classifications are pure step functions of the event
count matching the documented inclusive boundaries — aggregate scale Low ≤5,
Medium 6–20, High 21–50, Critical >50 (in particular 5 ↦ Low and 6 ↦ Medium);
per-student scale Low ≤2, Medium 3–5, High 6–10, Critical >10. -/
theorem risk_tier_step (n : ℕ) :
    summaryRiskLevel n = specAggregateRisk n ∧
    studentRiskLevel n = specStudentRisk n ∧
    summaryRiskLevel 5 = RiskLevel.Low ∧
    summaryRiskLevel 6 = RiskLevel.Medium := by
  refine ⟨?_, ?_, by decide, by decide⟩
  · unfold summaryRiskLevel specAggregateRisk
    split_ifs <;> first | rfl | (exfalso; omega)
  · unfold studentRiskLevel specStudentRisk
    split_ifs <;> first | rfl | (exfalso; omega)

/-! ## C6: missing test -/

/-- C6: looking up a test id that matches no stored test returns a null
result (the lookup is a total function, so no exception), and creating a
submission for such an id fails with the thrown error before any state
mutation — the store, in particular its submission collection, is unchanged. -/
theorem missing_test_behavior (store : Store) (now : ℕ)
    (testId studentId studentName : String) (answers : String → Option Answer)
    (timeSpent : ℚ) (events : List AntiCheatEvent)
    (habs : ∀ t ∈ store.tests, t.id ≠ testId) :
    getTestById store.tests testId = none ∧
    (submitTest store now testId studentId studentName answers timeSpent events).1 =
      Except.error "Test not found" ∧
    (submitTest store now testId studentId studentName answers timeSpent events).2 =
      store := by
  have h : getTestById store.tests testId = none := by
    apply List.find?_eq_none.mpr
    intro t ht
    simpa using habs t ht
  refine ⟨h, ?_, ?_⟩ <;> simp [submitTest, h]

/-- Witness for C6 at the empty store. -/
theorem missing_test_behavior_witness :
    (∀ t ∈ emptyStore.tests, t.id ≠ "test-404") ∧
    getTestById emptyStore.tests "test-404" = none :=
  ⟨fun t ht => absurd ht (List.not_mem_nil t),
    (missing_test_behavior emptyStore 0 "test-404" "S001" "Arjun" (fun _ => none) 0 []
      (fun t ht => absurd ht (List.not_mem_nil t))).1⟩

/-! ## C7: outcome attainment -/

/-- C7: for every outcome-attainment scope (any axis, any set of tests and
submissions) whose total possible points are zero, the computed attainment
percentage is exactly 0 and the tier is Not Attained; and the tier function
agrees everywhere with the specified step function (Highly Attained ≥80,
Attained ≥60, Partially Attained ≥40, else Not Attained). -/
theorem attainment_guarded (axis : Question → Option String) (tag : String)
    (tests : List Test) (submissions : List TestSubmission)
    (hzero : (outcomeTotals axis tag tests submissions).1 = 0) :
    attainPercentage (outcomeTotals axis tag tests submissions).2
      (outcomeTotals axis tag tests submissions).1 = 0 ∧
    attainmentLevelOf (attainPercentage (outcomeTotals axis tag tests submissions).2
      (outcomeTotals axis tag tests submissions).1) = AttainmentLevel.NotAttained ∧
    (∀ p : ℚ, attainmentLevelOf p = specAttainment p) := by
  rw [hzero]
  have h0 : attainPercentage (outcomeTotals axis tag tests submissions).2 0 = 0 := by
    simp [attainPercentage]
  refine ⟨h0, ?_, fun p => rfl⟩
  rw [h0]
  norm_num [attainmentLevelOf]

/-- Witness for C7 at the empty scope (no tests, no submissions): zero
possible points, percentage 0. -/
theorem attainment_guarded_witness :
    (outcomeTotals Question.co "CO1" [] []).1 = 0 ∧
    attainPercentage (outcomeTotals Question.co "CO1" [] []).2
      (outcomeTotals Question.co "CO1" [] []).1 = 0 :=
  ⟨rfl, (attainment_guarded Question.co "CO1" [] [] rfl).1⟩

end DSBA

namespace DSBA

/-! ## C8: one verdict per question; absent or mis-shaped answers -/

theorem find?_map_id_eq (answers : String → Option Answer) :
    ∀ (qs : List Question) (q : Question), q ∈ qs → (qs.map Question.id).Nodup →
      (qs.map (fun q => (q.id, evaluateQuestion q (answers q.id)))).find?
          (fun p => p.1 == q.id) =
        some (q.id, evaluateQuestion q (answers q.id)) := by
  intro qs
  induction qs with
  | nil =>
    intro q hq _
    exact absurd hq (List.not_mem_nil q)
  | cons q0 rest ih =>
    intro q hq hnd
    have hnd2 : q0.id ∉ rest.map Question.id ∧ (rest.map Question.id).Nodup := by
      rw [List.map_cons, List.nodup_cons] at hnd
      exact hnd
    rcases List.mem_cons.mp hq with rfl | hmem
    · rw [List.map_cons]
      exact List.find?_cons_of_pos _ (by simp)
    · have hne : ¬(q0.id == q.id) = true := by
        simp only [beq_iff_eq]
        intro h
        exact hnd2.1 (h ▸ List.mem_map_of_mem Question.id hmem)
      rw [List.map_cons, List.find?_cons_of_neg]
      · exact ih q hmem hnd2.2
      · simpa using hne

theorem evalQuestion_missing_or_mismatch (q : Question) (hwf : q.WellFormed) :
    ∀ ua : Option Answer,
      (ua = none ∨ ∃ a, ua = some a ∧ ¬ matchesShape q.type a) →
      (evaluateQuestion q ua).marksAwarded = 0 ∧
        (evaluateQuestion q ua).isCorrect = false := by
  obtain ⟨hpos, hshape⟩ := hwf
  intro ua hua
  rcases hua with rfl | ⟨a, rfl, hn⟩
  · cases htq : q.type with
    | mcq =>
      rw [htq] at hshape
      obtain ⟨c, hc⟩ := hshape
      simp [evaluateQuestion, htq, evalMcq, hc, strictEq]
    | checkbox => simp [evaluateQuestion, htq, evalZero]
    | descriptive => simp [evaluateQuestion, htq, evalZero]
  · cases htq : q.type with
    | mcq =>
      cases a with
      | str s =>
        rw [htq] at hn
        simp [matchesShape] at hn
      | arr l =>
        rw [htq] at hshape
        obtain ⟨c, hc⟩ := hshape
        simp [evaluateQuestion, htq, evalMcq, hc, strictEq]
    | checkbox =>
      cases a with
      | arr l =>
        rw [htq] at hn
        simp [matchesShape] at hn
      | str s => simp [evaluateQuestion, htq, evalZero]
    | descriptive =>
      cases a with
      | str s =>
        rw [htq] at hn
        simp [matchesShape] at hn
      | arr l => simp [evaluateQuestion, htq, evalZero]

/-- C8: for every test with distinct question ids and well-formed questions
and every answer map, evaluation produces exactly one result per question, in
question order and keyed by question id (so looking up any question id yields
exactly its verdict); and a question whose answer is absent or has the wrong
shape for its kind gets zero marks and a false correctness flag — there is no
separate unanswered state. -/
theorem evaluateAnswers_per_question (test : Test) (answers : String → Option Answer)
    (hids : (test.questions.map Question.id).Nodup)
    (hwf : ∀ q ∈ test.questions, q.WellFormed) :
    ((evaluateAnswers test answers).2.map Prod.fst = test.questions.map Question.id) ∧
    (∀ q ∈ test.questions,
      lookupEval (evaluateAnswers test answers).2 q.id =
        some (evaluateQuestion q (answers q.id))) ∧
    (∀ q ∈ test.questions, ∀ ua : Option Answer,
      (ua = none ∨ ∃ a, ua = some a ∧ ¬ matchesShape q.type a) →
      (evaluateQuestion q ua).marksAwarded = 0 ∧
        (evaluateQuestion q ua).isCorrect = false) := by
  refine ⟨?_, ?_, ?_⟩
  · simp [evaluateAnswers, List.map_map, Function.comp]
  · intro q hq
    unfold evaluateAnswers lookupEval
    simp only
    rw [find?_map_id_eq answers test.questions q hq hids]
    rfl
  · intro q hq
    exact evalQuestion_missing_or_mismatch q (hwf q hq)

/-- Witness for C8 at the seeded three-question test with an empty answer
map. -/
theorem evaluateAnswers_per_question_witness :
    (wTest.questions.map Question.id).Nodup ∧
    ((evaluateAnswers wTest (fun _ => none)).2.map Prod.fst =
      wTest.questions.map Question.id) := by
  have hwf : ∀ q ∈ wTest.questions, q.WellFormed := by
    intro q hq
    simp only [wTest, List.mem_cons, List.not_mem_nil, or_false] at hq
    rcases hq with rfl | rfl | rfl
    · exact ⟨by norm_num [wMcq], ⟨"Stack", rfl⟩⟩
    · exact ⟨by norm_num [wCb], ⟨["A", "S", "Q"], rfl, by simp⟩⟩
    · exact ⟨by norm_num [wDesc],
        ⟨["dynamic", "memory", "insertion", "deletion", "flexible"], rfl, by simp⟩⟩
  exact ⟨by decide,
    (evaluateAnswers_per_question wTest (fun _ => none) (by decide) hwf).1⟩

end DSBA

namespace DSBA

/-! ## C10: award bounds -/

/-- C10 counterexample: a free-text question may satisfy the data-model
invariant (positive point value, non-empty keywords) and still award more
than its point value, because the free-text branch rounds per question:
with 1/2 point and both keywords matched, `Math.round(0.5) = 1 > 1/2`. -/
theorem award_bounds_counterexample :
    cDesc.WellFormed ∧
    ¬ ((evaluateQuestion cDesc (some (.str "aa bb"))).marksAwarded ≤ cDesc.marks) := by
  constructor
  · exact ⟨by norm_num [cDesc], ⟨["aa", "bb"], rfl, by simp⟩⟩
  · have h1 : keywordOccurs "aa" "aa bb" = true := by decide
    have h2 : keywordOccurs "bb" "aa bb" = true := by decide
    have hfilter : ((["aa", "bb"] : List String).filter
        (fun kw => keywordOccurs kw "aa bb")) = ["aa", "bb"] := by
      simp [List.filter, h1, h2]
    have he : evaluateQuestion cDesc (some (.str "aa bb")) =
        evalDescriptive cDesc.marks ["aa", "bb"] "aa bb" := rfl
    rw [he]
    simp only [evalDescriptive, hfilter]
    norm_num [jsRound, cDesc, Int.floor_one]

theorem evaluateQuestion_bounds (q : Question) (ua : Option Answer)
    (hpos : 0 < q.marks) (hint : ∃ n : ℕ, q.marks = (n : ℚ)) :
    0 ≤ (evaluateQuestion q ua).marksAwarded ∧
      (evaluateQuestion q ua).marksAwarded ≤ q.marks := by
  have hm : 0 ≤ q.marks := le_of_lt hpos
  obtain ⟨n, hn⟩ := hint
  cases htq : q.type with
  | mcq =>
    have he : evaluateQuestion q ua = evalMcq q ua := by
      simp [evaluateQuestion, htq]
    rw [he]
    by_cases hb : strictEq ua q.correctAnswer = true
    · simp [evalMcq, hb, hm]
    · simp [evalMcq, hb, hm]
  | checkbox =>
    have hz : 0 ≤ (evalZero).marksAwarded ∧ (evalZero).marksAwarded ≤ q.marks := by
      simp [evalZero, hm]
    match ua with
    | none => simpa [evaluateQuestion, htq] using hz
    | some (.str s) => simpa [evaluateQuestion, htq] using hz
    | some (.arr l) =>
      match hca : q.correctAnswer with
      | none => simpa [evaluateQuestion, htq, hca] using hz
      | some (.str c) => simpa [evaluateQuestion, htq, hca] using hz
      | some (.arr ca) =>
        have he : evaluateQuestion q (some (.arr l)) = evalCheckbox q.marks ca l := by
          simp [evaluateQuestion, htq, hca]
        rw [he, evalCheckbox_eq]
        dsimp only
        constructor
        · exact checkboxAward_nonneg _ _ _ _
        · exact checkboxAward_le_marks q.marks hm _ _ _
            (Finset.card_le_card Finset.inter_subset_right)
  | descriptive =>
    have hz : 0 ≤ (evalZero).marksAwarded ∧ (evalZero).marksAwarded ≤ q.marks := by
      simp [evalZero, hm]
    match ua with
    | none => simpa [evaluateQuestion, htq] using hz
    | some (.arr l) => simpa [evaluateQuestion, htq] using hz
    | some (.str ans) =>
      match hks : q.keywords with
      | none => simpa [evaluateQuestion, htq, hks] using hz
      | some ks =>
        have he : evaluateQuestion q (some (.str ans)) = evalDescriptive q.marks ks ans := by
          simp [evaluateQuestion, htq, hks]
        rw [he]
        simp only [evalDescriptive]
        have hfrac0 : (0 : ℚ) ≤
            ((ks.filter (fun kw => keywordOccurs kw ans)).length : ℚ) / (ks.length : ℚ) := by
          positivity
        have hx0 : (0 : ℚ) ≤
            ((ks.filter (fun kw => keywordOccurs kw ans)).length : ℚ) / (ks.length : ℚ) *
              q.marks := mul_nonneg hfrac0 hm
        have hfrac1 :
            ((ks.filter (fun kw => keywordOccurs kw ans)).length : ℚ) / (ks.length : ℚ) ≤ 1 := by
          rcases Nat.eq_zero_or_pos ks.length with hk | hk
          · rw [hk]
            norm_num
          · have hkq : (0 : ℚ) < (ks.length : ℚ) := by exact_mod_cast hk
            rw [div_le_one hkq]
            exact_mod_cast List.length_filter_le _ ks
        have hx1 : ((ks.filter (fun kw => keywordOccurs kw ans)).length : ℚ) /
            (ks.length : ℚ) * q.marks ≤ q.marks := by
          calc ((ks.filter (fun kw => keywordOccurs kw ans)).length : ℚ) /
              (ks.length : ℚ) * q.marks ≤ 1 * q.marks :=
                mul_le_mul_of_nonneg_right hfrac1 hm
            _ = q.marks := one_mul q.marks
        constructor
        · exact jsRound_nonneg hx0
        · rw [hn] at hx1 ⊢
          exact jsRound_le_nat n hx1

theorem sum_marks_natCast :
    ∀ qs : List Question, (∀ q ∈ qs, ∃ n : ℕ, q.marks = (n : ℚ)) →
      ∃ N : ℕ, (qs.map Question.marks).sum = (N : ℚ) := by
  intro qs
  induction qs with
  | nil =>
    intro _
    exact ⟨0, by simp⟩
  | cons q rest ih =>
    intro h
    obtain ⟨n, hn⟩ := h q (List.mem_cons_self q rest)
    obtain ⟨N, hN⟩ := ih (fun p hp => h p (List.mem_cons_of_mem q hp))
    refine ⟨n + N, ?_⟩
    rw [List.map_cons, List.sum_cons, hn, hN]
    push_cast
    ring

/-- C10 (amended): for every question satisfying the data-model invariant and
whose point value is a (positive) integer, and every submitted answer of any
shape, the awarded marks lie between 0 and the point value inclusive; and for
a test all of whose questions are such, the aggregate score lies between 0
and the sum of the question points.  (The integrality restriction is forced:
the free-text branch rounds per question, so a fractional point value can be
exceeded — see the counterexample.) -/
theorem award_bounds :
    (∀ (q : Question) (ua : Option Answer), q.WellFormed → (∃ n : ℕ, q.marks = (n : ℚ)) →
      0 ≤ (evaluateQuestion q ua).marksAwarded ∧
        (evaluateQuestion q ua).marksAwarded ≤ q.marks) ∧
    (∀ (test : Test) (answers : String → Option Answer),
      (∀ q ∈ test.questions, q.WellFormed ∧ ∃ n : ℕ, q.marks = (n : ℚ)) →
      0 ≤ (evaluateAnswers test answers).1 ∧
        (evaluateAnswers test answers).1 ≤ (test.questions.map Question.marks).sum) := by
  have h1 : ∀ (q : Question) (ua : Option Answer), q.WellFormed →
      (∃ n : ℕ, q.marks = (n : ℚ)) →
      0 ≤ (evaluateQuestion q ua).marksAwarded ∧
        (evaluateQuestion q ua).marksAwarded ≤ q.marks :=
    fun q ua hwf hint => evaluateQuestion_bounds q ua hwf.1 hint
  refine ⟨h1, ?_⟩
  intro test answers h
  have hE : (evaluateAnswers test answers).1 =
      jsRound ((test.questions.map
        (fun q => (evaluateQuestion q (answers q.id)).marksAwarded)).sum) := by
    simp only [evaluateAnswers, List.map_map]
    rfl
  have hS0 : 0 ≤ (test.questions.map
      (fun q => (evaluateQuestion q (answers q.id)).marksAwarded)).sum := by
    apply List.sum_nonneg
    intro x hx
    obtain ⟨q, hq, rfl⟩ := List.mem_map.mp hx
    exact (h1 q (answers q.id) (h q hq).1 (h q hq).2).1
  have hSle : (test.questions.map
      (fun q => (evaluateQuestion q (answers q.id)).marksAwarded)).sum ≤
      (test.questions.map Question.marks).sum := by
    apply List.sum_le_sum
    intro q hq
    exact (h1 q (answers q.id) (h q hq).1 (h q hq).2).2
  obtain ⟨N, hN⟩ := sum_marks_natCast test.questions (fun q hq => (h q hq).2)
  rw [hE]
  constructor
  · exact jsRound_nonneg hS0
  · rw [hN]
    exact jsRound_le_nat N (by rw [← hN]; exact hSle)

/-- Witness for C10 (amended) at the seeded single-choice question with a
missing answer. -/
theorem award_bounds_witness :
    wMcq.WellFormed ∧
    0 ≤ (evaluateQuestion wMcq none).marksAwarded :=
  ⟨⟨by norm_num [wMcq], ⟨"Stack", rfl⟩⟩,
    (award_bounds.1 wMcq none ⟨by norm_num [wMcq], ⟨"Stack", rfl⟩⟩
      ⟨5, by norm_num [wMcq]⟩).1⟩

end DSBA

namespace DSBA

/-! ## Substring test vs the mathematical infix relation -/

theorem containsSub_iff (needle : List Char) : ∀ hay : List Char,
    (containsSub needle hay = true ↔ needle <:+: hay) := by
  intro hay
  induction hay with
  | nil => simp [containsSub, List.isEmpty_iff]
  | cons c rest ih =>
    simp [containsSub, List.infix_cons_iff, ih, List.isPrefixOf_iff_prefix]

theorem keywordOccurs_iff (kw ans : String) :
    keywordOccurs kw ans = true ↔
      (kw.toList.map Char.toLower) <:+: (ans.toList.map Char.toLower) :=
  containsSub_iff _ _

/-! ## C3: leaderboard ordering and ranks -/

theorem leaderboardLE_trans : ∀ a b c : LeaderboardEntry,
    leaderboardLE a b = true → leaderboardLE b c = true → leaderboardLE a c = true := by
  intro a b c hab hbc
  simp only [leaderboardLE, Bool.or_eq_true, Bool.and_eq_true, decide_eq_true_eq] at *
  rcases hab with h | ⟨h, ht⟩ <;> rcases hbc with h2 | ⟨h2, ht2⟩
  · exact Or.inl (h2.trans h)
  · exact Or.inl (h2 ▸ h)
  · exact Or.inl (lt_of_lt_of_eq h2 h.symm)
  · exact Or.inr ⟨h.trans h2, ht.trans ht2⟩

theorem leaderboardLE_total : ∀ a b : LeaderboardEntry,
    (leaderboardLE a b || leaderboardLE b a) = true := by
  intro a b
  simp only [leaderboardLE, Bool.or_eq_true, Bool.and_eq_true, decide_eq_true_eq]
  rcases lt_trichotomy a.score b.score with h | h | h
  · exact Or.inr (Or.inl h)
  · rcases le_total a.timeSpent b.timeSpent with ht | ht
    · exact Or.inl (Or.inr ⟨h, ht⟩)
    · exact Or.inr (Or.inr ⟨h.symm, ht⟩)
  · exact Or.inl (Or.inl h)

/-- C3: for every submission set and test id, the produced leaderboard is
pairwise ordered by score descending with elapsed time ascending breaking
ties — in particular, for every pair of entries the one with the strictly
higher score precedes the other regardless of time — and the ranks are
exactly the 1-based positions `1, 2, …, n` (sequential, never equal). -/
theorem leaderboard_order (submissions : List TestSubmission) (testId : String) :
    (getLeaderboard submissions testId).Pairwise
      (fun a b => b.score < a.score ∨ (a.score = b.score ∧ a.timeSpent ≤ b.timeSpent)) ∧
    (getLeaderboard submissions testId).map LeaderboardEntry.rank =
      List.range' 1 (getLeaderboard submissions testId).length := by
  have hfinal : getLeaderboard submissions testId =
      ((leaderboardEntries submissions testId).mergeSort leaderboardLE).enum.map
        (fun p => { p.2 with rank := p.1 + 1 }) := rfl
  set sorted := (leaderboardEntries submissions testId).mergeSort leaderboardLE
    with hsorted
  constructor
  · have hpw : sorted.Pairwise (fun a b => leaderboardLE a b = true) :=
      List.sorted_mergeSort leaderboardLE_trans leaderboardLE_total _
    have hpw2 : sorted.Pairwise (fun a b =>
        b.score < a.score ∨ (a.score = b.score ∧ a.timeSpent ≤ b.timeSpent)) := by
      refine hpw.imp ?_
      intro a b h
      simpa [leaderboardLE, Bool.or_eq_true, Bool.and_eq_true, decide_eq_true_eq] using h
    have h2 : (sorted.enum.map Prod.snd).Pairwise (fun a b =>
        b.score < a.score ∨ (a.score = b.score ∧ a.timeSpent ≤ b.timeSpent)) := by
      rw [List.enum_map_snd]
      exact hpw2
    have h3 := List.pairwise_map.mp h2
    rw [hfinal, List.pairwise_map]
    exact h3
  · rw [hfinal, List.map_map]
    have hlen : ((sorted.enum.map
        (fun p : ℕ × LeaderboardEntry => { p.2 with rank := p.1 + 1 })).length) =
        sorted.length := by
      simp
    rw [hlen]
    have hcomp : (LeaderboardEntry.rank ∘
        fun p : ℕ × LeaderboardEntry => { p.2 with rank := p.1 + 1 }) =
        ((fun i => i + 1) ∘ Prod.fst) := rfl
    rw [hcomp, ← List.map_map, List.enum_map_fst, List.range'_eq_map_range]
    exact List.map_congr_left (fun i _ => by omega)

end DSBA
